import Mathlib

/-!
# ConfigMap-backed storage adapter (`pkg/storage/store.go`)

A shallow embedding of the storage adapter of `aylei/kaba` and the proofs of
its specification.  Go strings are embedded as Lean strings, a Go `panic` as
the `panic` constructor of `Result`, a Go `error` return as `Option Error`
(`none` is `nil`), and the three collaborators the adapter is handed
(`runtime.Codec`, `storage.Versioner`, `corev1.ConfigMapInterface`) as records
of functions.
-/

set_option autoImplicit false

namespace Kaba

/-! ## Outcome of a call -/

/-- Outcome of a Go call that may panic: `panic msg` aborts, `ret a` returns `a`. -/
inductive Result (α : Type) where
  | panic (msg : String)
  | ret (a : α)
  deriving DecidableEq, Repr

deriving instance DecidableEq for Except

/-! ## The `strings` functions used by the adapter -/

/-- Segments of a character list around every occurrence of `sep`; the result
has one more element than there are separators, so it is never empty. -/
def splitChars (sep : Char) : List Char → List (List Char)
  | [] => [[]]
  | c :: cs =>
    if c = sep then [] :: splitChars sep cs
    else
      match splitChars sep cs with
      | [] => [[c]]
      | seg :: segs => (c :: seg) :: segs

/-- Go `strings.Split(s, sep)` for a one-character separator (the adapter only
splits on the string holding the single character slash). -/
def Split (s : String) (sep : Char) : List String :=
  (splitChars sep s.data).map String.mk

/-- Go `strings.TrimPrefix(s, p)`: `s` without the leading `p` when `s` starts
with `p`, otherwise `s` itself. -/
def TrimPrefix (s p : String) : String :=
  if p.data.isPrefixOf s.data then String.mk (s.data.drop p.data.length) else s

/-- Go `strings.Join(elems, sep)`. -/
def Join : List String → String → String
  | [], _ => ""
  | [a], _ => a
  | a :: b :: rest, sep => a ++ sep ++ Join (b :: rest) sep

/-- The Unicode case tables behind Go `unicode.ToLower`, for the runes above
`unicode.MaxASCII`: library data, taken as a parameter. -/
structure CaseTables where
  lower : Char → Char

/-- Case tables that leave every rune above ASCII as it is; the tables are not
consulted for a string of ASCII runes. -/
def asciiTables : CaseTables := ⟨fun c => c⟩

/-- Case tables that know one capital above ASCII, `É`, and its small letter. -/
def accentTables : CaseTables := ⟨fun c => if c = 'É' then 'é' else c⟩

/-- Go `unicode.ToLower(r)`: an ASCII rune is mapped directly (a capital `A`
to `Z` to its small letter, any other to itself), a rune above ASCII through
the case tables. -/
def toLowerRune (U : CaseTables) (c : Char) : Char :=
  if c.toNat ≤ 127 then c.toLower else U.lower c

/-- Go `strings.ToLower(s)`: `unicode.ToLower` applied to every rune of `s`. -/
def ToLower (U : CaseTables) (s : String) : String := String.mk (s.data.map (toLowerRune U))

/-- What the key codec relies on in the case tables: lower-casing twice is
lower-casing once, and no rune but the slash lower-cases to the slash. -/
structure CaseTables.Lawful (U : CaseTables) : Prop where
  idem : ∀ c, toLowerRune U (toLowerRune U c) = toLowerRune U c
  slash : ∀ c, toLowerRune U c = '/' → c = '/'

/-! ## Structured keys -/

def labelDomain : String := "aba.pingcap.com"

def groupLabel : String := labelDomain ++ "/group"

def kindLabel : String := labelDomain ++ "/kind"

def namespaceLabel : String := labelDomain ++ "/namespace"

def nameLabel : String := labelDomain ++ "/name"

/-- Structured representation of a key of the shape
`/group/kind/namespace/name`. -/
structure objKey where
  group : String
  kind : String
  «namespace» : String
  name : String
  fullName : String
  deriving DecidableEq, Repr

/-- Go `parseObjKey`: panics unless the key, less one leading slash, splits
into exactly four segments. -/
def parseObjKey (U : CaseTables) (key : String) : Result objKey :=
  let s := Split (TrimPrefix key "/") '/'
  if s.length ≠ 4 then
    Result.panic "expect a string key in /\x7bgroup\x7d/\x7bkind\x7d/\x7bns\x7d/\x7bname\x7d format"
  else
    Result.ret
      { group := s.getD 0 ""
        kind := s.getD 1 ""
        «namespace» := s.getD 2 ""
        name := s.getD 3 ""
        fullName := ToLower U (Join s "-") }

/-! ## Errors -/

/-- Error values the adapter produces or passes on: `errorString` is what
`errors.New` and `fmt.Errorf` build, `statusError` an API status error of the
backend with its reason, `storageError` a `storage.StorageError`. -/
inductive Error where
  | errorString (msg : String)
  | statusError (reason : String) (message : String)
  | storageError (code : Nat) (key : String) (resourceVersion : Int)
  deriving DecidableEq, Repr

/-- Go `err.Error()`, the text `%v` prints. -/
def Error.text : Error → String
  | Error.errorString msg => msg
  | Error.statusError _ message => message
  | Error.storageError _ key _ => "StorageError: key not found, Key: " ++ key

/-- Go `apierr.IsNotFound`: the error is an API status whose reason is `NotFound`. -/
def IsNotFound : Error → Bool
  | Error.statusError reason _ => reason == "NotFound"
  | _ => false

/-- Value of `storage.ErrCodeKeyNotFound`. -/
def ErrCodeKeyNotFound : Nat := 1

/-- Go `storage.NewKeyNotFoundError(key, rv)`. -/
def NewKeyNotFoundError (key : String) (rv : Int) : Error :=
  Error.storageError ErrCodeKeyNotFound key rv

/-! ## Collaborators handed to the adapter -/

/-- Index into a Go `map[string]string`: the zero value for a missing key. -/
def mapIndex (m : List (String × String)) (k : String) : String :=
  match m.lookup k with
  | some v => v
  | none => ""

/-- The `metav1.ObjectMeta` fields the adapter reads or writes. -/
structure ObjectMeta where
  Name : String
  Labels : List (String × String)
  ResourceVersion : String
  UID : String
  deriving DecidableEq, Repr

/-- A `v1.ConfigMap`, the backend entry. -/
structure ConfigMap where
  ObjectMeta : ObjectMeta
  Data : List (String × String)
  deriving DecidableEq, Repr

/-- A `v1.ConfigMapList`: the list-level version and the entries. -/
structure ConfigMapList where
  ResourceVersion : String
  Items : List ConfigMap
  deriving DecidableEq, Repr

/-- The `metav1.ListOptions` field the adapter sets. -/
structure ListOptions where
  FieldSelector : String
  deriving DecidableEq, Repr

/-- Both `storage.Preconditions` and `metav1.Preconditions`: an optional UID. -/
structure Preconditions where
  UID : Option String
  deriving DecidableEq, Repr

/-- The `metav1.DeleteOptions` field the adapter sets. -/
structure DeleteOptions where
  Preconditions : Option Preconditions
  deriving DecidableEq, Repr

/-- Go `corev1.ConfigMapInterface`, the backend client, over a backend state
`σ`: writes return the new state, reads leave it alone. -/
structure ConfigMapInterface (σ : Type) where
  Create : σ → ConfigMap → σ × Except Error ConfigMap
  Get : σ → String → Except Error ConfigMap
  Delete : σ → String → DeleteOptions → σ × Option Error
  List : σ → ListOptions → Except Error ConfigMapList

/-- Go `runtime.Codec`: `Decode data into` decodes `data` into the object `into`. -/
structure Codec (Obj : Type) where
  Encode : Obj → Except Error String
  Decode : String → Obj → Except Error Obj

/-- The `Items` field of a list object as reflection sees it: no such field, a
field that is not a slice, or the slice. -/
inductive ItemsField (Obj : Type) where
  | missing
  | notSlice
  | slice (items : List Obj)
  deriving DecidableEq, Repr

/-- A list API object: its `Items` field and the version of its `ListMeta`. -/
structure ObjectList (Obj : Type) where
  Items : ItemsField Obj
  ResourceVersion : String
  deriving DecidableEq, Repr

/-- Go `storage.Versioner`; a method that mutates its argument returns the
mutated object, and leaves it as it was when it fails. -/
structure Versioner (Obj : Type) where
  UpdateObject : Obj → Nat → Except Error Obj
  UpdateList : ObjectList Obj → Nat → String → Except Error (ObjectList Obj)
  PrepareObjectForStorage : Obj → Except Error Obj
  ObjectResourceVersion : Obj → Except Error Nat
  ParseResourceVersion : String → Except Error Nat

/-- Go `storage.SelectionPredicate`, through its `Matches` method. -/
structure SelectionPredicate (Obj : Type) where
  Matches : Obj → Except Error Bool

/-- Go `storage.ResponseMeta`. -/
structure ResponseMeta where
  TTL : Int
  ResourceVersion : Nat
  deriving DecidableEq, Repr

/-- Go `storage.UpdateFunc`: the new object and an optional TTL, or an error. -/
abbrev UpdateFunc (Obj : Type) : Type :=
  Obj → ResponseMeta → Except Error (Obj × Option Nat)

/-- Go `runtime.SetZeroValue`: fails on a nil object, otherwise stores the
zero value of the type in the slot. -/
def SetZeroValue {Obj : Type} [Inhabited Obj] (objPtr : Option Obj) : Option Obj × Option Error :=
  match objPtr with
  | none => (none, some (Error.errorString "expected pointer, but got invalid kind"))
  | some _ => (some default, none)

/-- Go `meta.GetItemsPtr`: a pointer to the `Items` slice of a list object, or
an error when the object has no `Items` field or the field is not a slice. -/
def GetItemsPtr {Obj : Type} (listObj : ObjectList Obj) : Except Error (ItemsField Obj) :=
  match listObj.Items with
  | ItemsField.missing => Except.error (Error.errorString "no Items field in this object")
  | ItemsField.notSlice => Except.error (Error.errorString "items: Expected slice")
  | ItemsField.slice items => Except.ok (ItemsField.slice items)

/-! ## The adapter -/

/-- Metadata of the backend entry of a key (`objKey.objectMeta`): the entry is
named by `fullName` and labelled with the four segments. -/
def objKey.objectMeta (o : objKey) : ObjectMeta :=
  { Name := o.fullName
    Labels :=
      [(groupLabel, o.group), (kindLabel, o.kind), (namespaceLabel, o.«namespace»),
        (nameLabel, o.name)]
    ResourceVersion := ""
    UID := "" }

/-- The ConfigMap-backed `storage.Interface`. -/
structure store (σ Obj : Type) where
  kubeCli : ConfigMapInterface σ
  codec : Codec Obj
  versioner : Versioner Obj

/-- The call `versioner.UpdateObject(obj, rev)` whose error is dropped ("being
unable to set the version does not prevent the object from being extracted"). -/
def stampVersion {Obj : Type} (versioner : Versioner Obj) (obj : Obj) (rev : Nat) : Obj :=
  match versioner.UpdateObject obj rev with
  | Except.ok obj1 => obj1
  | Except.error _ => obj

/-- Go `decode`: decodes `value` into the output slot and stamps the version
`rev` on it.  The `uint64` version goes through `int64` and back, which
changes nothing.  Panics on a nil slot. -/
def decode {Obj : Type} (codec : Codec Obj) (versioner : Versioner Obj) (value : String)
    (objPtr : Option Obj) (rev : Nat) : Result (Option Obj × Option Error) :=
  match objPtr with
  | none => Result.panic "unable to convert output object to pointer"
  | some into =>
    match codec.Decode value into with
    | Except.error err => Result.ret (objPtr, some err)
    | Except.ok obj => Result.ret (some (stampVersion versioner obj rev), none)

/-- Go `appendListItem`: decodes `data` into a fresh element, stamps `rev` on
it and appends it to the slice `v` when the predicate matches. -/
def appendListItem {Obj : Type} [Inhabited Obj] (v : List Obj) (data : String) (rev : Nat)
    (pred : SelectionPredicate Obj) (codec : Codec Obj) (versioner : Versioner Obj) :
    List Obj × Option Error :=
  match codec.Decode data default with
  | Except.error err => (v, some err)
  | Except.ok obj0 =>
    let obj := stampVersion versioner obj0 rev
    match pred.Matches obj with
    | Except.ok true => (v ++ [obj], none)
    | _ => (v, none)

/-- What `Create` leaves behind: the backend, the input object (which
`PrepareObjectForStorage` mutates), the output slot and the returned error. -/
structure CreateReturn (σ Obj : Type) where
  backend : σ
  obj : Obj
  out : Option Obj
  err : Option Error
  deriving DecidableEq, Repr

/-- Go `store.Create`. -/
def store.Create {σ Obj : Type} (s : store σ Obj) (U : CaseTables) (key : String) (obj : Obj)
    (out : Option Obj) (_ttl : Nat) (st : σ) : Result (CreateReturn σ Obj) :=
  let preset : Bool :=
    match s.versioner.ObjectResourceVersion obj with
    | Except.ok version => version != 0
    | Except.error _ => false
  if preset then
    Result.ret ⟨st, obj, out,
      some (Error.errorString "resourceVersion should not be set on objects to be created")⟩
  else
    match s.versioner.PrepareObjectForStorage obj with
    | Except.error err =>
      Result.ret ⟨st, obj, out,
        some (Error.errorString ("PrepareObjectForStorage failed: " ++ err.text))⟩
    | Except.ok obj1 =>
      match s.codec.Encode obj1 with
      | Except.error err => Result.ret ⟨st, obj1, out, some err⟩
      | Except.ok data =>
        let configData := [("value", data)]
        match parseObjKey U key with
        | Result.panic msg => Result.panic msg
        | Result.ret objKey =>
          match s.kubeCli.Create st { ObjectMeta := objKey.objectMeta, Data := configData } with
          | (st1, Except.error err) => Result.ret ⟨st1, obj1, out, some err⟩
          | (st1, Except.ok cm) =>
            match out with
            | some _ =>
              match s.versioner.ParseResourceVersion cm.ObjectMeta.ResourceVersion with
              | Except.error err => Result.ret ⟨st1, obj1, out, some err⟩
              | Except.ok rv =>
                match decode s.codec s.versioner (mapIndex cm.Data "value") out rv with
                | Result.panic msg => Result.panic msg
                | Result.ret (out1, err) => Result.ret ⟨st1, obj1, out1, err⟩
            | none => Result.ret ⟨st1, obj1, out, none⟩

/-- What `Delete` leaves behind: the backend, the output slot and the error. -/
structure DeleteReturn (σ Obj : Type) where
  backend : σ
  out : Option Obj
  err : Option Error
  deriving DecidableEq, Repr

/-- Go `store.Delete`: hands the key string as it is to the backend, and
dereferences `preconditions`, which panics when it is nil. -/
def store.Delete {σ Obj : Type} (s : store σ Obj) (key : String) (out : Option Obj)
    (preconditions : Option Preconditions) (st : σ) : Result (DeleteReturn σ Obj) :=
  match preconditions with
  | none => Result.panic "invalid memory address or nil pointer dereference"
  | some pre =>
    match s.kubeCli.Delete st key { Preconditions := some { UID := pre.UID } } with
    | (st1, some err) => Result.ret ⟨st1, out, some err⟩
    | (st1, none) => Result.ret ⟨st1, out, none⟩

/-- Go `store.Get`: the output slot after the call and the returned error. -/
def store.Get {σ Obj : Type} [Inhabited Obj] (s : store σ Obj) (U : CaseTables) (key : String)
    (_resourceVersion : String) (out : Option Obj) (ignoreNotFound : Bool) (st : σ) :
    Result (Option Obj × Option Error) :=
  match parseObjKey U key with
  | Result.panic msg => Result.panic msg
  | Result.ret objKey =>
    match s.kubeCli.Get st objKey.fullName with
    | Except.error err =>
      if IsNotFound err then
        if ignoreNotFound then Result.ret (SetZeroValue out)
        else Result.ret (out, some (NewKeyNotFoundError key 0))
      else Result.ret (out, some err)
    | Except.ok cm =>
      match s.versioner.ParseResourceVersion cm.ObjectMeta.ResourceVersion with
      | Except.error err => Result.ret (out, some err)
      | Except.ok rv => decode s.codec s.versioner (mapIndex cm.Data "value") out rv

/-- Go `store.GetToList`: the list object after the call and the returned error. -/
def store.GetToList {σ Obj : Type} [Inhabited Obj] (s : store σ Obj) (U : CaseTables)
    (key : String)
    (_resourceVersion : String) (p : SelectionPredicate Obj) (listObj : ObjectList Obj)
    (st : σ) : Result (ObjectList Obj × Option Error) :=
  match GetItemsPtr listObj with
  | Except.error err => Result.ret (listObj, some err)
  | Except.ok (ItemsField.slice v) =>
    match parseObjKey U key with
    | Result.panic msg => Result.panic msg
    | Result.ret objKey =>
      match s.kubeCli.List st { FieldSelector := "metada.name=" ++ objKey.fullName } with
      | Except.error err => Result.ret (listObj, some err)
      | Except.ok cmList =>
        let appended : Except Error (List Obj) :=
          match cmList.Items with
          | item0 :: _ =>
            match s.versioner.ParseResourceVersion item0.ObjectMeta.ResourceVersion with
            | Except.error err => Except.error err
            | Except.ok rv =>
              match appendListItem v (mapIndex item0.Data "value") rv p s.codec s.versioner with
              | (_, some err) => Except.error err
              | (v1, none) => Except.ok v1
          | [] => Except.ok v
        match appended with
        | Except.error err => Result.ret (listObj, some err)
        | Except.ok v1 =>
          let listObj1 : ObjectList Obj := { listObj with Items := ItemsField.slice v1 }
          match s.versioner.ParseResourceVersion cmList.ResourceVersion with
          | Except.error _ => Result.ret (listObj1, none)
          | Except.ok listRV =>
            match s.versioner.UpdateList listObj1 listRV "" with
            | Except.error err => Result.ret (listObj1, some err)
            | Except.ok listObj2 => Result.ret (listObj2, none)
  | Except.ok _ => Result.panic "need ptr to slice"

/-- What `GuaranteedUpdate` leaves behind: the backend, the object slot, the
objects the update function was invoked on (in order) and the error. -/
structure UpdateReturn (σ Obj : Type) where
  backend : σ
  ptrToType : Option Obj
  invoked : List Obj
  err : Option Error
  deriving DecidableEq, Repr

/-- Go `store.GuaranteedUpdate`: the body is a TODO and returns nil. -/
def store.GuaranteedUpdate {σ Obj : Type} (_s : store σ Obj) (_key : String)
    (ptrToType : Option Obj) (_ignoreNotFound : Bool) (_precondtions : Option Preconditions)
    (_tryUpdate : UpdateFunc Obj) (_suggestion : List Obj) (st : σ) :
    Result (UpdateReturn σ Obj) :=
  Result.ret ⟨st, ptrToType, [], none⟩

/-- Go `store.Count`. -/
def store.Count {σ Obj : Type} (_s : store σ Obj) (_key : String) : Int × Option Error :=
  (0, none)

/-- Go `store.List`: the body after the slice check is a TODO and returns nil. -/
def store.List {σ Obj : Type} (_s : store σ Obj) (_key : String) (_resourceVersion : String)
    (_p : SelectionPredicate Obj) (listObj : ObjectList Obj) (_st : σ) :
    Result (ObjectList Obj × Option Error) :=
  match GetItemsPtr listObj with
  | Except.error err => Result.ret (listObj, some err)
  | Except.ok (ItemsField.slice _) => Result.ret (listObj, none)
  | Except.ok _ => Result.panic "need ptr to slice"

/-! ## Decimal version strings -/

/-- The decimal digit character of `d`. -/
def digitChar (d : Nat) : Char := Char.ofNat (48 + d)

/-- Decimal digits of `n`, most significant first; `fuel` bounds the number of digits. -/
def formatDigits : Nat → Nat → List Char
  | 0, _ => []
  | fuel + 1, n =>
    if n < 10 then [digitChar n] else formatDigits fuel (n / 10) ++ [digitChar (n % 10)]

/-- Go `strconv.FormatUint(n, 10)`. -/
def FormatUint (n : Nat) : String := String.mk (formatDigits (n + 1) n)

/-- Value of a run of decimal digits read after the value `acc`; `none` on any other character. -/
def parseDigits : List Char → Nat → Option Nat
  | [], acc => some acc
  | c :: cs, acc => if c.isDigit then parseDigits cs (acc * 10 + (c.toNat - 48)) else none

/-- Go `strconv.ParseUint(s, 10, 64)`. -/
def ParseUint (s : String) : Except Error Nat :=
  match s.data with
  | [] => Except.error (Error.errorString "strconv.ParseUint: invalid syntax")
  | cs =>
    match parseDigits cs 0 with
    | none => Except.error (Error.errorString "strconv.ParseUint: invalid syntax")
    | some n =>
      if n < 2 ^ 64 then Except.ok n
      else Except.error (Error.errorString "strconv.ParseUint: value out of range")

/-! ## Reference backend -/

/-- State of the reference backend: the entries, the last version it assigned,
and every (entry name, version) pair it ever assigned. -/
structure MemState where
  entries : List ConfigMap
  rev : Nat
  assigned : List (String × Nat)
  deriving DecidableEq, Repr

/-- The backend before any write. -/
def MemState.empty : MemState := ⟨[], 0, []⟩

/-- The entry of a name, if the backend holds one. -/
def MemState.find (st : MemState) (name : String) : Option ConfigMap :=
  st.entries.find? (fun cm => cm.ObjectMeta.Name == name)

/-- Modelled from the spec: the entry as the backend stores it, with the next
version (and a fresh UID) assigned by the backend. -/
def MemState.stored (st : MemState) (cm : ConfigMap) : ConfigMap :=
  { cm with
    ObjectMeta :=
      { cm.ObjectMeta with
        ResourceVersion := FormatUint (st.rev + 1), UID := FormatUint (st.rev + 1) } }

/-- Modelled from the spec: the backend's create.  The key-value service is
outside the repository; the spec has it reject an entry whose identifier
already exists and assign each new entry the next value of a monotonically
increasing integer version (the first entry gets version 1). -/
def memCreate (st : MemState) (cm : ConfigMap) : MemState × Except Error ConfigMap :=
  match st.find cm.ObjectMeta.Name with
  | some _ => (st, Except.error (Error.statusError "AlreadyExists" "configmaps already exists"))
  | none =>
    ({ entries := st.stored cm :: st.entries, rev := st.rev + 1,
       assigned := (cm.ObjectMeta.Name, st.rev + 1) :: st.assigned },
      Except.ok (st.stored cm))

/-- Modelled from the spec: the backend's read of the single entry of a name. -/
def memGet (st : MemState) (name : String) : Except Error ConfigMap :=
  match st.find name with
  | some cm => Except.ok cm
  | none => Except.error (Error.statusError "NotFound" "configmaps not found")

/-- Modelled from the spec: the backend's delete, which fails when the entry
is missing or the identity precondition is not satisfied. -/
def memDelete (st : MemState) (name : String) (opts : DeleteOptions) : MemState × Option Error :=
  match st.find name with
  | none => (st, some (Error.statusError "NotFound" "configmaps not found"))
  | some cm =>
    let satisfied : Bool :=
      match opts.Preconditions with
      | some { UID := some uid } => uid == cm.ObjectMeta.UID
      | _ => true
    if satisfied then
      ({ st with entries := st.entries.filter (fun e => e.ObjectMeta.Name != name) }, none)
    else (st, some (Error.statusError "Conflict" "precondition failed: UID"))

/-- Modelled from the spec: the backend's list.  It knows the field selector
on the entry name and the empty selector, and rejects any other. -/
def memList (st : MemState) (opts : ListOptions) : Except Error ConfigMapList :=
  if opts.FieldSelector = "" then
    Except.ok { ResourceVersion := FormatUint st.rev, Items := st.entries }
  else if ("metadata.name=".data).isPrefixOf opts.FieldSelector.data then
    Except.ok
      { ResourceVersion := FormatUint st.rev
        Items :=
          st.entries.filter (fun e =>
            "metadata.name=" ++ e.ObjectMeta.Name == opts.FieldSelector) }
  else Except.error (Error.statusError "BadRequest" "field label not supported")

/-- The reference backend as a client. -/
def memClient : ConfigMapInterface MemState :=
  { Create := memCreate, Get := memGet, Delete := memDelete, List := memList }

/-- Invariant of the reference backend: no version it assigned exceeds its counter. -/
def MemState.WF (st : MemState) : Prop :=
  ∀ p ∈ st.assigned, p.2 ≤ st.rev

/-- A client that answers every read with a fixed response and refuses every
write (a test double of the client interface). -/
def stubClient (got : Except Error ConfigMap) (listed : Except Error ConfigMapList) :
    ConfigMapInterface Unit :=
  { Create := fun st _ => (st, Except.error (Error.statusError "MethodNotAllowed" "read only"))
    Get := fun _ _ => got
    Delete := fun st _ _ => (st, some (Error.statusError "MethodNotAllowed" "read only"))
    List := fun _ _ => listed }

/-! ## Reference object, versioner and codec -/

/-- The fields of a `TidbConfig` the examples use: the resource version of its
`ObjectMeta` and `Spec.Replicas`. -/
structure TidbConfig where
  ResourceVersion : String
  Replicas : Int
  deriving DecidableEq, Repr

instance : Inhabited TidbConfig := ⟨⟨"", 0⟩⟩

/-- The version string the reference versioner writes: empty for version 0. -/
def versionString (v : Nat) : String := if v = 0 then "" else FormatUint v

/-- Reference versioner: the version is kept as a decimal string in the
object, the empty string standing for 0, and nothing but the version field is
read or written. -/
def APIObjectVersioner : Versioner TidbConfig :=
  { UpdateObject := fun o v => Except.ok { o with ResourceVersion := versionString v }
    UpdateList := fun l v _ => Except.ok { l with ResourceVersion := versionString v }
    PrepareObjectForStorage := fun o => Except.ok { o with ResourceVersion := "" }
    ObjectResourceVersion := fun o =>
      if o.ResourceVersion = "" then Except.ok 0 else ParseUint o.ResourceVersion
    ParseResourceVersion := fun s =>
      if s = "" ∨ s = "0" then Except.ok 0 else ParseUint s }

/-- The part of a character list before the first `sep` and the part after it. -/
def cutAt (sep : Char) : List Char → Option (List Char × List Char)
  | [] => none
  | c :: cs =>
    if c = sep then some ([], cs)
    else
      match cutAt sep cs with
      | some (a, b) => some (c :: a, b)
      | none => none

/-- Text form of a `TidbConfig`: sign and decimal digits of the replicas, a
semicolon, the resource version. -/
def encodeTidbConfig (o : TidbConfig) : List Char :=
  (if o.Replicas < 0 then '-' else '+') ::
    (formatDigits (o.Replicas.natAbs + 1) o.Replicas.natAbs ++ ';' :: o.ResourceVersion.data)

/-- Inverse of `encodeTidbConfig`. -/
def decodeTidbConfig : List Char → Option TidbConfig
  | [] => none
  | sign :: rest =>
    if sign = '-' ∨ sign = '+' then
      match cutAt ';' rest with
      | none => none
      | some (ds, rv) =>
        match parseDigits ds 0 with
        | none => none
        | some n => some ⟨String.mk rv, if sign = '-' then -(n : Int) else (n : Int)⟩
    else none

/-- Reference codec of `TidbConfig`. -/
def tidbCodec : Codec TidbConfig :=
  { Encode := fun o => Except.ok (String.mk (encodeTidbConfig o))
    Decode := fun data _ =>
      match decodeTidbConfig data.data with
      | some o => Except.ok o
      | none => Except.error (Error.errorString "decode: malformed data") }

/-- The adapter over the reference backend, codec and versioner. -/
def refStore : store MemState TidbConfig := ⟨memClient, tidbCodec, APIObjectVersioner⟩

/-- The reference backend after one create under the key
`/tidb/config/default/cluster1` of an object with three replicas. -/
def sampleBackend : MemState :=
  { entries :=
      [{ ObjectMeta :=
            { Name := "tidb-config-default-cluster1"
              Labels :=
                [(groupLabel, "tidb"), (kindLabel, "config"), (namespaceLabel, "default"),
                  (nameLabel, "cluster1")]
              ResourceVersion := "1"
              UID := "1" }
         Data := [("value", "+3;")] }],
    rev := 1,
    assigned := [("tidb-config-default-cluster1", 1)] }

/-- The reference backend after that entry has been deleted again (by name,
with no precondition): the version it was given stays on record. -/
def deletedBackend : MemState :=
  (memDelete sampleBackend "tidb-config-default-cluster1" ⟨some ⟨none⟩⟩).1

/-- A list response with two entries, of versions 1 and 2, holding objects with
three and four replicas; the list-level version is 2. -/
def twoEntries : ConfigMapList :=
  { ResourceVersion := "2"
    Items :=
      [{ ObjectMeta := { Name := "first", Labels := [], ResourceVersion := "1", UID := "1" }
         Data := [("value", "+3;")] },
       { ObjectMeta := { Name := "second", Labels := [], ResourceVersion := "2", UID := "2" }
         Data := [("value", "+4;")] }] }

/-- A list response with one entry, of version 1, whose list-level version is
not a number. -/
def unversionedAnswer : ConfigMapList :=
  { ResourceVersion := "abc"
    Items :=
      [{ ObjectMeta := { Name := "first", Labels := [], ResourceVersion := "1", UID := "1" }
         Data := [("value", "+3;")] }] }

/-- The adapter over a client that answers every list call with `resp`. -/
def listStore (resp : ConfigMapList) : store Unit TidbConfig :=
  ⟨stubClient (Except.error (Error.statusError "NotFound" "configmaps not found"))
      (Except.ok resp), tidbCodec, APIObjectVersioner⟩

/-- Modelled from the spec: what the adapter relies on in a versioner (the
versioner itself is library code outside the repository).  Versions are
64-bit; stamping a version always succeeds and is read back by
`ObjectResourceVersion`; stamping and `PrepareObjectForStorage` touch nothing
but the version field, so they are forgotten by a later stamp; and the
versioner reads the decimal version strings of the backend. -/
structure Versioner.Lawful {Obj : Type} (vs : Versioner Obj) : Prop where
  update_ok : ∀ o v, ∃ o1, vs.UpdateObject o v = Except.ok o1
  version_of_update : ∀ o v o1, v < 2 ^ 64 → vs.UpdateObject o v = Except.ok o1 →
    vs.ObjectResourceVersion o1 = Except.ok v
  update_update : ∀ o v o1, vs.UpdateObject o v = Except.ok o1 →
    ∀ w, vs.UpdateObject o1 w = vs.UpdateObject o w
  prepare_update : ∀ o o1, vs.PrepareObjectForStorage o = Except.ok o1 →
    ∀ w, vs.UpdateObject o1 w = vs.UpdateObject o w
  parse_format : ∀ v, v < 2 ^ 64 → vs.ParseResourceVersion (FormatUint v) = Except.ok v

/-- Two objects are equal except for their resource version: stamped with the
same version they become the same object. -/
def EqExceptVersion {Obj : Type} (vs : Versioner Obj) (a b : Obj) : Prop :=
  ∀ w, vs.UpdateObject a w = vs.UpdateObject b w

/-- A codec whose `Decode` inverts `Encode`, whatever object it decodes into. -/
def Codec.Inverts {Obj : Type} (cd : Codec Obj) : Prop :=
  ∀ o data into, cd.Encode o = Except.ok data → cd.Decode data into = Except.ok o

/-! ## Facts about the string functions -/

theorem toLowerRune_ascii (U : CaseTables) (c : Char) (h : c.toNat ≤ 127) :
    toLowerRune U c = c.toLower := by
  simp [toLowerRune, h]

theorem toLowerRune_slash (U : CaseTables) : toLowerRune U '/' = '/' := by
  rw [toLowerRune_ascii U '/' (by decide)]
  decide

theorem toLowerRune_eq_slash (U : CaseTables) (hU : U.Lawful) (c : Char) :
    toLowerRune U c = '/' ↔ c = '/' :=
  ⟨hU.slash c, fun h => h ▸ toLowerRune_slash U⟩

theorem toLower_idem (c : Char) : c.toLower.toLower = c.toLower := by
  by_cases h : 65 ≤ c.toNat ∧ c.toNat ≤ 90
  · obtain ⟨h1, h2⟩ := h
    have hc : c = Char.ofNat c.toNat := (Char.ofNat_toNat c).symm
    generalize c.toNat = n at h1 h2 hc
    subst hc
    interval_cases n <;> decide
  · have hid : c.toLower = c := by simp [Char.toLower, h]
    rw [hid, hid]

theorem toLower_eq_slash (c : Char) (h : c.toLower = '/') : c = '/' := by
  by_cases hc : 65 ≤ c.toNat ∧ c.toNat ≤ 90
  · obtain ⟨h1, h2⟩ := hc
    have hc : c = Char.ofNat c.toNat := (Char.ofNat_toNat c).symm
    generalize c.toNat = n at h1 h2 hc
    subst hc
    revert h
    interval_cases n <;> decide
  · have hid : c.toLower = c := by simp [Char.toLower, hc]
    rw [hid] at h
    exact h

theorem toLower_toNat_le (c : Char) (h : c.toNat ≤ 127) : c.toLower.toNat ≤ 127 := by
  by_cases hc : 65 ≤ c.toNat ∧ c.toNat ≤ 90
  · obtain ⟨h1, h2⟩ := hc
    have hc : c = Char.ofNat c.toNat := (Char.ofNat_toNat c).symm
    generalize c.toNat = n at h1 h2 hc
    subst hc
    interval_cases n <;> decide
  · have hid : c.toLower = c := by simp [Char.toLower, hc]
    rw [hid]
    exact h

theorem asciiTables_lawful : asciiTables.Lawful := by
  constructor
  · intro c
    by_cases h : c.toNat ≤ 127
    · rw [toLowerRune_ascii _ c h, toLowerRune_ascii _ _ (toLower_toNat_le c h), toLower_idem]
    · have hid : toLowerRune asciiTables c = c := by simp [toLowerRune, h, asciiTables]
      rw [hid, hid]
  · intro c hc
    by_cases h : c.toNat ≤ 127
    · rw [toLowerRune_ascii _ c h] at hc
      exact toLower_eq_slash c hc
    · have hid : toLowerRune asciiTables c = c := by simp [toLowerRune, h, asciiTables]
      rw [hid] at hc
      exact hc

theorem accentTables_lawful : accentTables.Lawful := by
  constructor
  · intro c
    by_cases h : c.toNat ≤ 127
    · rw [toLowerRune_ascii _ c h, toLowerRune_ascii _ _ (toLower_toNat_le c h), toLower_idem]
    · by_cases hc : c = 'É'
      · subst hc
        decide
      · have hid : toLowerRune accentTables c = c := by simp [toLowerRune, h, accentTables, hc]
        rw [hid, hid]
  · intro c hc
    by_cases h : c.toNat ≤ 127
    · rw [toLowerRune_ascii _ c h] at hc
      exact toLower_eq_slash c hc
    · by_cases hE : c = 'É'
      · subst hE
        exact absurd hc (by decide)
      · have hid : toLowerRune accentTables c = c := by simp [toLowerRune, h, accentTables, hE]
        rw [hid] at hc
        exact hc

theorem splitChars_cons_sep (sep : Char) (cs : List Char) :
    splitChars sep (sep :: cs) = [] :: splitChars sep cs := by
  simp [splitChars]

theorem splitChars_cons_other (sep c : Char) (cs : List Char) (h : c ≠ sep) :
    ∃ seg segs, splitChars sep cs = seg :: segs ∧
      splitChars sep (c :: cs) = (c :: seg) :: segs := by
  cases hs : splitChars sep cs with
  | nil =>
    exfalso
    cases cs with
    | nil => simp [splitChars] at hs
    | cons d ds =>
      by_cases hd : d = sep
      · simp [splitChars, hd] at hs
      · simp only [splitChars, hd, if_false] at hs
        split at hs <;> simp at hs
  | cons seg segs => exact ⟨seg, segs, rfl, by simp [splitChars, h, hs]⟩

theorem splitChars_length (sep : Char) (cs : List Char) :
    (splitChars sep cs).length = cs.count sep + 1 := by
  induction cs with
  | nil => simp [splitChars]
  | cons c cs ih =>
    by_cases h : c = sep
    · subst h
      simp [splitChars_cons_sep, ih]
    · obtain ⟨seg, segs, h1, h2⟩ := splitChars_cons_other sep c cs h
      rw [h2, List.count_cons_of_ne (fun e => h e.symm)]
      rw [h1] at ih
      simpa using ih

theorem splitChars_no_sep (sep : Char) (cs : List Char) (h : sep ∉ cs) :
    splitChars sep cs = [cs] := by
  induction cs with
  | nil => simp [splitChars]
  | cons c cs ih =>
    have hc : c ≠ sep := fun e => h (by simp [e])
    have hcs : sep ∉ cs := fun e => h (by simp [e])
    simp [splitChars, hc, ih hcs]

theorem splitChars_append (sep : Char) (a b : List Char) (h : sep ∉ a) :
    splitChars sep (a ++ sep :: b) = a :: splitChars sep b := by
  induction a with
  | nil => simp [splitChars]
  | cons c cs ih =>
    have hc : c ≠ sep := fun e => h (by simp [e])
    have hcs : sep ∉ cs := fun e => h (by simp [e])
    simp [splitChars, hc, ih hcs]

theorem splitChars_segments (sep : Char) (cs : List Char) :
    ∀ seg ∈ splitChars sep cs, sep ∉ seg := by
  induction cs with
  | nil => simp [splitChars]
  | cons c cs ih =>
    by_cases h : c = sep
    · subst h
      intro seg hseg
      rw [splitChars_cons_sep] at hseg
      rcases List.mem_cons.mp hseg with e | e
      · simp [e]
      · exact ih seg e
    · obtain ⟨seg0, segs, h1, h2⟩ := splitChars_cons_other sep c cs h
      intro seg hseg
      rw [h2] at hseg
      rw [h1] at ih
      rcases List.mem_cons.mp hseg with e | e
      · subst e
        intro hmem
        rcases List.mem_cons.mp hmem with e1 | e1
        · exact h e1.symm
        · exact ih seg0 (by simp) e1
      · exact ih seg (by simp [e])

theorem splitChars_map (f : Char → Char) (sep : Char) (hf : ∀ c, f c = sep ↔ c = sep)
    (cs : List Char) :
    splitChars sep (cs.map f) = (splitChars sep cs).map (List.map f) := by
  induction cs with
  | nil => simp [splitChars]
  | cons c cs ih =>
    by_cases h : c = sep
    · subst h
      have hfc : f c = c := (hf c).mpr rfl
      simp [List.map_cons, hfc, splitChars_cons_sep, ih]
    · have hfc : f c ≠ sep := fun e => h ((hf c).mp e)
      obtain ⟨seg, segs, h1, h2⟩ := splitChars_cons_other sep c cs h
      obtain ⟨seg1, segs1, h3, h4⟩ := splitChars_cons_other sep (f c) (cs.map f) hfc
      rw [List.map_cons, h4, h2]
      rw [h3, h1] at ih
      simp only [List.map_cons, List.cons.injEq] at ih ⊢
      exact ⟨⟨trivial, ih.1⟩, ih.2⟩

theorem Split_length (s : String) (sep : Char) :
    (Split s sep).length = s.data.count sep + 1 := by
  simp [Split, splitChars_length]

theorem ToLower_append (U : CaseTables) (a b : String) :
    ToLower U (a ++ b) = ToLower U a ++ ToLower U b := by
  apply String.ext
  simp [ToLower]

theorem ToLower_idem (U : CaseTables) (hU : U.Lawful) (s : String) :
    ToLower U (ToLower U s) = ToLower U s := by
  apply String.ext
  simp [ToLower, hU.idem]

theorem ToLower_dash (U : CaseTables) : ToLower U "-" = "-" := by
  apply String.ext
  have h : toLowerRune U '-' = '-' := by
    rw [toLowerRune_ascii U '-' (by decide)]
    decide
  show List.map (toLowerRune U) ['-'] = ['-']
  simp [h]

theorem ToLower_Join_dash (U : CaseTables) (xs : List String) :
    Join (xs.map (ToLower U)) "-" = ToLower U (Join xs "-") := by
  induction xs with
  | nil => rfl
  | cons a rest ih =>
    cases rest with
    | nil => simp [Join]
    | cons b rest =>
      simp only [List.map_cons, Join, ToLower_append, ToLower_dash] at ih ⊢
      rw [ih]

theorem TrimPrefix_slash_ToLower (U : CaseTables) (hU : U.Lawful) (key : String) :
    TrimPrefix (ToLower U key) "/" = ToLower U (TrimPrefix key "/") := by
  apply String.ext
  rcases key with ⟨cs⟩
  cases cs with
  | nil => simp [TrimPrefix, ToLower, List.isPrefixOf]
  | cons c cs =>
    by_cases h : c = '/'
    · subst h
      simp [TrimPrefix, ToLower, List.isPrefixOf, toLowerRune_slash]
    · have h1 : ¬ '/' = toLowerRune U c := fun e => h (hU.slash c e.symm)
      have h2 : ¬ '/' = c := fun e => h e.symm
      simp [TrimPrefix, ToLower, List.isPrefixOf, h1, h2]

theorem Split_slash_ToLower (U : CaseTables) (hU : U.Lawful) (s : String) :
    Split (ToLower U s) '/' = (Split s '/').map (ToLower U) := by
  simp only [Split, ToLower, List.map_map]
  rw [splitChars_map (toLowerRune U) '/' (toLowerRune_eq_slash U hU)]
  simp [List.map_map, Function.comp_def, ToLower]

theorem parseObjKey_ret_iff (U : CaseTables) (key : String) (k : objKey) :
    parseObjKey U key = Result.ret k ↔
      (Split (TrimPrefix key "/") '/').length = 4 ∧
        k = { group := (Split (TrimPrefix key "/") '/').getD 0 ""
              kind := (Split (TrimPrefix key "/") '/').getD 1 ""
              «namespace» := (Split (TrimPrefix key "/") '/').getD 2 ""
              name := (Split (TrimPrefix key "/") '/').getD 3 ""
              fullName := ToLower U (Join (Split (TrimPrefix key "/") '/') "-") } := by
  unfold parseObjKey
  by_cases h : (Split (TrimPrefix key "/") '/').length = 4
  · simp [h, eq_comm]
  · simp [h]

/-! ## Facts about decimal version strings -/

theorem digitChar_spec (d : Nat) (h : d < 10) :
    (digitChar d).isDigit = true ∧ (digitChar d).toNat - 48 = d := by
  interval_cases d <;> decide

theorem parseDigits_append (xs ys : List Char) (acc : Nat) :
    parseDigits (xs ++ ys) acc = (parseDigits xs acc).bind (parseDigits ys) := by
  induction xs generalizing acc with
  | nil => simp [parseDigits]
  | cons c cs ih =>
    by_cases h : c.isDigit = true
    · simp [parseDigits, h, ih]
    · simp [parseDigits, h]

theorem parseDigits_formatDigits (fuel n : Nat) (h : n < fuel) :
    parseDigits (formatDigits fuel n) 0 = some n := by
  induction fuel generalizing n with
  | zero => omega
  | succ fuel ih =>
    by_cases h10 : n < 10
    · simp [formatDigits, h10, parseDigits, digitChar_spec n h10]
    · have hq : n / 10 < fuel := by omega
      have hr : n % 10 < 10 := by omega
      simp only [formatDigits, h10, if_false, parseDigits_append, ih _ hq, Option.some_bind,
        parseDigits, (digitChar_spec _ hr).1, (digitChar_spec _ hr).2, if_true]
      congr 1
      omega

theorem formatDigits_isDigit (fuel n : Nat) : ∀ c ∈ formatDigits fuel n, c.isDigit = true := by
  induction fuel generalizing n with
  | zero => simp [formatDigits]
  | succ fuel ih =>
    intro c hc
    by_cases h10 : n < 10
    · simp only [formatDigits, h10, if_true, List.mem_singleton] at hc
      rw [hc]
      exact (digitChar_spec n h10).1
    · simp only [formatDigits, h10, if_false, List.mem_append, List.mem_singleton] at hc
      rcases hc with hc | hc
      · exact ih _ c hc
      · rw [hc]
        exact (digitChar_spec _ (by omega)).1

theorem formatDigits_ne_nil (fuel n : Nat) : formatDigits (fuel + 1) n ≠ [] := by
  by_cases h10 : n < 10 <;> simp [formatDigits, h10]

theorem FormatUint_ne_empty (n : Nat) : FormatUint n ≠ "" := by
  intro h
  exact formatDigits_ne_nil n n (congrArg String.data h)

theorem ParseUint_FormatUint (n : Nat) (h : n < 2 ^ 64) :
    ParseUint (FormatUint n) = Except.ok n := by
  unfold ParseUint FormatUint
  cases hf : formatDigits (n + 1) n with
  | nil => exact absurd hf (formatDigits_ne_nil n n)
  | cons c cs =>
    have hp := parseDigits_formatDigits (n + 1) n (by omega)
    rw [hf] at hp
    have h2 : n < 18446744073709551616 := by
      norm_num at h
      exact h
    simp [hp, h2]

/-! ## The reference versioner and codec are lawful -/

theorem APIObjectVersioner_lawful : APIObjectVersioner.Lawful := by
  refine ⟨?_, ?_, ?_, ?_, ?_⟩
  · intro o v
    exact ⟨_, rfl⟩
  · intro o v o1 hv h
    simp only [APIObjectVersioner, Except.ok.injEq] at h
    subst h
    by_cases h0 : v = 0
    · simp [APIObjectVersioner, versionString, h0]
    · simp [APIObjectVersioner, versionString, h0, FormatUint_ne_empty, ParseUint_FormatUint v hv]
  · intro o v o1 h w
    simp only [APIObjectVersioner, Except.ok.injEq] at h
    subst h
    rfl
  · intro o o1 h w
    simp only [APIObjectVersioner, Except.ok.injEq] at h
    subst h
    rfl
  · intro v hv
    have hp := ParseUint_FormatUint v hv
    by_cases h0 : FormatUint v = "0"
    · rw [h0] at hp
      have hz : ParseUint "0" = Except.ok 0 := by decide
      rw [hz] at hp
      have hv0 : v = 0 := by
        injection hp with hp
        exact hp.symm
      show (if FormatUint v = "" ∨ FormatUint v = "0" then Except.ok 0
        else ParseUint (FormatUint v)) = Except.ok v
      rw [if_pos (Or.inr h0), hv0]
    · simp [APIObjectVersioner, h0, FormatUint_ne_empty, hp]

theorem cutAt_append (sep : Char) (a b : List Char) (h : sep ∉ a) :
    cutAt sep (a ++ sep :: b) = some (a, b) := by
  induction a with
  | nil => simp [cutAt]
  | cons c cs ih =>
    have hc : c ≠ sep := fun e => h (by simp [e])
    have hcs : sep ∉ cs := fun e => h (by simp [e])
    simp [cutAt, hc, ih hcs]

theorem decode_encodeTidbConfig (o : TidbConfig) :
    decodeTidbConfig (encodeTidbConfig o) = some o := by
  rcases o with ⟨⟨rv⟩, reps⟩
  have hsemi : ';' ∉ formatDigits (reps.natAbs + 1) reps.natAbs := by
    intro hmem
    have hd := formatDigits_isDigit _ _ _ hmem
    exact absurd hd (by decide)
  have hp := parseDigits_formatDigits (reps.natAbs + 1) reps.natAbs (by omega)
  by_cases hneg : reps < 0
  · simp [encodeTidbConfig, decodeTidbConfig, hneg, cutAt_append _ _ _ hsemi, hp]
    rw [abs_of_neg hneg, neg_neg]
  · simp [encodeTidbConfig, decodeTidbConfig, hneg, cutAt_append _ _ _ hsemi, hp]
    exact le_of_not_lt hneg

theorem tidbCodec_inverts : tidbCodec.Inverts := by
  intro o data into h
  simp only [tidbCodec, Except.ok.injEq] at h
  subst h
  simp [tidbCodec, decode_encodeTidbConfig]

/-! ## Facts about the reference backend -/

theorem MemState.WF_empty : MemState.empty.WF := by
  intro p hp
  simp [MemState.empty] at hp

theorem memCreate_WF (st : MemState) (cm : ConfigMap) (h : st.WF) : (memCreate st cm).1.WF := by
  unfold memCreate
  cases hfind : st.find cm.ObjectMeta.Name with
  | some _ => simpa using h
  | none =>
    intro p hp
    simp only [List.mem_cons] at hp
    rcases hp with hp | hp
    · subst hp
      exact Nat.le_refl _
    · exact Nat.le_succ_of_le (h p hp)

theorem memDelete_WF (st : MemState) (name : String) (opts : DeleteOptions) (h : st.WF) :
    (memDelete st name opts).1.WF := by
  unfold memDelete
  cases hfind : st.find name with
  | none => simpa using h
  | some cm =>
    simp only
    split
    · exact h
    · exact h

theorem memCreate_fresh (st : MemState) (cm : ConfigMap)
    (hfind : st.find cm.ObjectMeta.Name = none) :
    memCreate st cm =
      ({ entries := st.stored cm :: st.entries, rev := st.rev + 1,
         assigned := (cm.ObjectMeta.Name, st.rev + 1) :: st.assigned },
        Except.ok (st.stored cm)) := by
  simp [memCreate, hfind]

theorem Create_ok_backend {Obj : Type} (U : CaseTables) (cd : Codec Obj) (vs : Versioner Obj) (key : String)
    (k : objKey) (obj : Obj) (out : Option Obj) (ttl : Nat) (st : MemState)
    (r : CreateReturn MemState Obj) (hk : parseObjKey U key = Result.ret k)
    (hcreate : (store.mk memClient cd vs).Create U key obj out ttl st = Result.ret r)
    (hok : r.err = none) :
    ∃ obj1 data, vs.PrepareObjectForStorage obj = Except.ok obj1 ∧
      cd.Encode obj1 = Except.ok data ∧ st.find k.fullName = none ∧
      r.backend = (memCreate st ⟨k.objectMeta, [("value", data)]⟩).1 := by
  unfold store.Create at hcreate
  simp only [hk] at hcreate
  split at hcreate
  · cases hcreate
    simp at hok
  · cases hprep : vs.PrepareObjectForStorage obj with
    | error e =>
      simp only [hprep] at hcreate
      cases hcreate
      simp at hok
    | ok obj1 =>
      cases henc : cd.Encode obj1 with
      | error e =>
        simp only [hprep, henc] at hcreate
        cases hcreate
        simp at hok
      | ok data =>
        simp only [hprep, henc] at hcreate
        refine ⟨obj1, data, rfl, henc, ?_⟩
        cases hfind : st.find k.fullName with
        | some cm0 =>
          have hc : memClient.Create st ⟨k.objectMeta, [("value", data)]⟩ =
              (st, Except.error (Error.statusError "AlreadyExists" "configmaps already exists")) := by
            simp [memClient, memCreate, objKey.objectMeta, hfind]
          simp only [hc] at hcreate
          cases hcreate
          simp at hok
        | none =>
          refine ⟨rfl, ?_⟩
          have hm : memClient.Create st ⟨k.objectMeta, [("value", data)]⟩ =
              memCreate st ⟨k.objectMeta, [("value", data)]⟩ := rfl
          rw [hm] at hcreate
          generalize memCreate st ⟨k.objectMeta, [("value", data)]⟩ = mc at hcreate ⊢
          rcases mc with ⟨st1, res⟩
          cases res with
          | error e =>
            simp only at hcreate
            cases hcreate
            simp at hok
          | ok cm =>
            simp only at hcreate
            split at hcreate
            · split at hcreate
              · cases hcreate
                rfl
              · split at hcreate
                · cases hcreate
                · cases hcreate
                  rfl
            · cases hcreate
              rfl


/-! ## The entry name of a key is never the key string -/

theorem Join_dash_no_slash (xs : List String) (h : ∀ x ∈ xs, '/' ∉ x.data) :
    '/' ∉ (Join xs "-").data := by
  induction xs with
  | nil => simp [Join]
  | cons a rest ih =>
    cases rest with
    | nil => simpa [Join] using h a (by simp)
    | cons b rest =>
      have ha := h a (by simp)
      have hrest := ih (fun x hx => h x (by simp [hx]))
      simp only [Join, String.data_append, List.mem_append, not_or]
      exact ⟨⟨ha, by decide⟩, hrest⟩

theorem fullName_no_slash (U : CaseTables) (hU : U.Lawful) (key : String) (k : objKey)
    (hk : parseObjKey U key = Result.ret k) :
    '/' ∉ k.fullName.data := by
  rw [parseObjKey_ret_iff] at hk
  obtain ⟨_, hk⟩ := hk
  rw [hk]
  have hseg : ∀ x ∈ Split (TrimPrefix key "/") '/', '/' ∉ x.data := by
    intro x hx
    simp only [Split, List.mem_map] at hx
    obtain ⟨seg, hseg, rfl⟩ := hx
    exact splitChars_segments '/' _ seg hseg
  have hj := Join_dash_no_slash _ hseg
  simp only [ToLower, List.mem_map, not_exists, not_and]
  intro c hc hslash
  exact hj (hU.slash c hslash ▸ hc)

theorem key_has_slash (U : CaseTables) (key : String) (k : objKey)
    (hk : parseObjKey U key = Result.ret k) :
    '/' ∈ key.data := by
  rw [parseObjKey_ret_iff] at hk
  obtain ⟨hlen, _⟩ := hk
  rw [Split_length] at hlen
  have hpos : 0 < (TrimPrefix key "/").data.count '/' := by omega
  have hmem : '/' ∈ (TrimPrefix key "/").data := List.count_pos_iff.mp hpos
  unfold TrimPrefix at hmem
  split at hmem
  · exact List.mem_of_mem_drop hmem
  · exact hmem

theorem fullName_ne_key (U : CaseTables) (hU : U.Lawful) (key : String) (k : objKey)
    (hk : parseObjKey U key = Result.ret k) :
    key ≠ k.fullName := by
  intro h
  have h1 := key_has_slash U key k hk
  rw [h] at h1
  exact fullName_no_slash U hU key k hk h1

theorem find?_filter_other (l : List ConfigMap) (name other : String) (h : other ≠ name) :
    (l.filter (fun e => e.ObjectMeta.Name != other)).find? (fun cm => cm.ObjectMeta.Name == name) =
      l.find? (fun cm => cm.ObjectMeta.Name == name) := by
  induction l with
  | nil => rfl
  | cons e rest ih =>
    by_cases he : e.ObjectMeta.Name = other
    · have hn : ¬ e.ObjectMeta.Name = name := fun e1 => h (he.symm.trans e1)
      rw [List.filter_cons_of_neg (by simp [he]), List.find?_cons_of_neg _ (by simp [hn]), ih]
    · rw [List.filter_cons_of_pos (by simp [he])]
      by_cases hn : e.ObjectMeta.Name = name
      · rw [List.find?_cons_of_pos _ (by simp [hn]), List.find?_cons_of_pos _ (by simp [hn])]
      · rw [List.find?_cons_of_neg _ (by simp [hn]), List.find?_cons_of_neg _ (by simp [hn]), ih]

/-- Whatever the backend holds, `Delete` of a valid key leaves the entry that
`Create` and `Get` address under that key as it is: the backend is asked to
delete the key string, which is never the entry name. -/
theorem Delete_keeps_entry {Obj : Type} (U : CaseTables) (hU : U.Lawful) (cd : Codec Obj) (vs : Versioner Obj) (key : String)
    (k : objKey) (out : Option Obj) (pre : Preconditions) (st : MemState)
    (d : DeleteReturn MemState Obj) (hk : parseObjKey U key = Result.ret k)
    (hd : (store.mk memClient cd vs).Delete key out (some pre) st = Result.ret d) :
    memGet d.backend k.fullName = memGet st k.fullName := by
  have hne := fullName_ne_key U hU key k hk
  have hback : d.backend = (memDelete st key ⟨some ⟨pre.UID⟩⟩).1 := by
    unfold store.Delete at hd
    simp only at hd
    have hm : memClient.Delete st key ⟨some ⟨pre.UID⟩⟩ = memDelete st key ⟨some ⟨pre.UID⟩⟩ := rfl
    rw [hm] at hd
    rcases hmd : memDelete st key ⟨some ⟨pre.UID⟩⟩ with ⟨st1, e⟩
    rw [hmd] at hd
    cases e <;> simp only at hd <;> cases hd <;> rfl
  rw [hback]
  unfold memDelete
  cases hfind : st.find key with
  | none => rfl
  | some cm =>
    simp only
    split
    · simp only [memGet, MemState.find]
      rw [find?_filter_other _ _ _ hne]
    · rfl

/-! ## Reading into a list -/

theorem appendListItem_ok {Obj : Type} [Inhabited Obj] (v v1 : List Obj) (data : String)
    (rev : Nat) (pred : SelectionPredicate Obj) (codec : Codec Obj) (versioner : Versioner Obj)
    (h : appendListItem v data rev pred codec versioner = (v1, none)) :
    ∃ obj0, codec.Decode data default = Except.ok obj0 ∧
      v1 = if pred.Matches (stampVersion versioner obj0 rev) = Except.ok true then
          v ++ [stampVersion versioner obj0 rev] else v := by
  unfold appendListItem at h
  cases hd : codec.Decode data default with
  | error e => simp [hd] at h
  | ok obj0 =>
    refine ⟨obj0, rfl, ?_⟩
    simp only [hd] at h
    split at h
    · rename_i hm
      simp only [Prod.mk.injEq, and_true] at h
      simp [hm, h]
    · rename_i hm
      simp only [Prod.mk.injEq, and_true] at h
      have hne : ¬ pred.Matches (stampVersion versioner obj0 rev) = Except.ok true := by
        intro e
        exact hm e
      simp [hne, h]


/-! ## Key codec -/

/-- C1: for a key made of a slash followed by four slash-separated segments
`g`, `k`, `n`, `m` that contain no slash, `parseObjKey` returns the key whose
group, kind, namespace and name are exactly `g`, `k`, `n`, `m` (nothing is
trimmed or case-folded); the derived `fullName` is the lower-cased hyphen-join.
The segments need not even be non-empty. -/
theorem parseObjKey_roundtrip (U : CaseTables) (g k n m : String) (hg : '/' ∉ g.data) (hk : '/' ∉ k.data)
    (hn : '/' ∉ n.data) (hm : '/' ∉ m.data) :
    parseObjKey U ("/" ++ g ++ "/" ++ k ++ "/" ++ n ++ "/" ++ m) =
      Result.ret
        { group := g
          kind := k
          «namespace» := n
          name := m
          fullName := ToLower U (g ++ "-" ++ k ++ "-" ++ n ++ "-" ++ m) } := by
  rcases g with ⟨g⟩
  rcases k with ⟨k⟩
  rcases n with ⟨n⟩
  rcases m with ⟨m⟩
  have hs : Split (TrimPrefix ("/" ++ String.mk g ++ "/" ++ String.mk k ++ "/" ++ String.mk n ++
      "/" ++ String.mk m) "/") '/' = [String.mk g, String.mk k, String.mk n, String.mk m] := by
    have hd : (TrimPrefix ("/" ++ String.mk g ++ "/" ++ String.mk k ++ "/" ++ String.mk n ++
        "/" ++ String.mk m) "/").data = g ++ '/' :: (k ++ '/' :: (n ++ '/' :: m)) := by
      simp [TrimPrefix, List.isPrefixOf]
    simp only [Split, hd]
    rw [splitChars_append '/' g _ hg, splitChars_append '/' k _ hk,
      splitChars_append '/' n _ hn, splitChars_no_sep '/' m hm]
    rfl
  rw [parseObjKey_ret_iff, hs]
  refine ⟨rfl, ?_⟩
  simp [Join, String.append_assoc]

/-- Instance of C1 at the key `/tidb/Config/default/cluster1`. -/
theorem parseObjKey_roundtrip_witness :
    ('/' ∉ "tidb".data ∧ '/' ∉ "Config".data ∧ '/' ∉ "default".data ∧ '/' ∉ "cluster1".data) ∧
      parseObjKey asciiTables ("/" ++ "tidb" ++ "/" ++ "Config" ++ "/" ++ "default" ++ "/" ++ "cluster1") =
        Result.ret
          { group := "tidb"
            kind := "Config"
            «namespace» := "default"
            name := "cluster1"
            fullName := ToLower asciiTables ("tidb" ++ "-" ++ "Config" ++ "-" ++ "default" ++ "-" ++ "cluster1") } :=
  ⟨by decide,
    parseObjKey_roundtrip asciiTables "tidb" "Config" "default" "cluster1" (by decide) (by decide) (by decide)
      (by decide)⟩

/-- C2, against the claim: the keys `/a//c/d` and `//a/b/c` have an empty
segment, yet `parseObjKey` does not panic on them, it returns a key with an
empty kind, respectively an empty group. -/
theorem parseObjKey_accepts_empty_segment :
    parseObjKey asciiTables "/a//c/d" = Result.ret ⟨"a", "", "c", "d", "a--c-d"⟩ ∧
      parseObjKey asciiTables "//a/b/c" = Result.ret ⟨"", "a", "b", "c", "-a-b-c"⟩ := by
  decide

/-- C2, amended: `parseObjKey` panics exactly when the key, less one leading
slash, does not hold exactly three slashes, that is, does not split into
exactly four segments; whether a segment is empty plays no part. -/
theorem parseObjKey_panics_iff (U : CaseTables) (key : String) :
    (∃ msg, parseObjKey U key = Result.panic msg) ↔ (TrimPrefix key "/").data.count '/' ≠ 3 := by
  have hlen := Split_length (TrimPrefix key "/") '/'
  unfold parseObjKey
  by_cases h : (Split (TrimPrefix key "/") '/').length = 4
  · have h3 : (TrimPrefix key "/").data.count '/' = 3 := by omega
    simp [h, h3]
  · have h3 : (TrimPrefix key "/").data.count '/' ≠ 3 := by omega
    simp [h, h3]

/-- C10: the backend identifier of a key forgets case and segment boundaries.
Whatever the Unicode case tables are, as long as lower-casing twice is
lower-casing once and only the slash lower-cases to the slash, every valid key
and its lower-cased form parse to the same `fullName`; and, for any case
tables, the keys `/a-b/c/d/e` and `/a/b-c/d/e`, as well as `/A/b/c/d` and
`/a/b/c/d`, carry different labels but the same entry name. -/
theorem fullName_not_injective :
    (∀ U : CaseTables, U.Lawful → ∀ key k, parseObjKey U key = Result.ret k →
      ∃ k1, parseObjKey U (ToLower U key) = Result.ret k1 ∧ k1.fullName = k.fullName) ∧
    (∀ U : CaseTables, ∃ a b,
      parseObjKey U "/a-b/c/d/e" = Result.ret a ∧ parseObjKey U "/a/b-c/d/e" = Result.ret b ∧
      a.objectMeta.Labels ≠ b.objectMeta.Labels ∧ a.objectMeta.Name = b.objectMeta.Name) ∧
    (∀ U : CaseTables, ∃ a b,
      parseObjKey U "/A/b/c/d" = Result.ret a ∧ parseObjKey U "/a/b/c/d" = Result.ret b ∧
      a.objectMeta.Labels ≠ b.objectMeta.Labels ∧ a.objectMeta.Name = b.objectMeta.Name) := by
  refine ⟨?_, ?_, ?_⟩
  · intro U hU key k hk
    rw [parseObjKey_ret_iff] at hk
    obtain ⟨hlen, hk⟩ := hk
    have hsplit : Split (TrimPrefix (ToLower U key) "/") '/' =
        (Split (TrimPrefix key "/") '/').map (ToLower U) := by
      rw [TrimPrefix_slash_ToLower U hU, Split_slash_ToLower U hU]
    refine ⟨_, (parseObjKey_ret_iff _ _ _).mpr ⟨by rw [hsplit, List.length_map, hlen], rfl⟩, ?_⟩
    rw [hk, hsplit, ToLower_Join_dash, ToLower_idem U hU]
  · intro U
    exact ⟨⟨"a-b", "c", "d", "e", "a-b-c-d-e"⟩, ⟨"a", "b-c", "d", "e", "a-b-c-d-e"⟩,
      rfl, rfl, by decide, by decide⟩
  · intro U
    exact ⟨⟨"A", "b", "c", "d", "a-b-c-d"⟩, ⟨"a", "b", "c", "d", "a-b-c-d"⟩,
      rfl, rfl, by decide, by decide⟩

/-- Instance of C10 at the key `/É/Config/default/Cluster1`, with case tables
that lower-case `É`. -/
theorem fullName_not_injective_witness :
    (accentTables.Lawful ∧
      parseObjKey accentTables "/É/Config/default/Cluster1" =
        Result.ret ⟨"É", "Config", "default", "Cluster1", "é-config-default-cluster1"⟩) ∧
      ∃ k1, parseObjKey accentTables (ToLower accentTables "/É/Config/default/Cluster1") =
          Result.ret k1 ∧
        k1.fullName = "é-config-default-cluster1" :=
  ⟨⟨accentTables_lawful, by decide⟩,
    fullName_not_injective.1 accentTables accentTables_lawful "/É/Config/default/Cluster1"
      ⟨"É", "Config", "default", "Cluster1", "é-config-default-cluster1"⟩ (by decide)⟩

/-! ## Create and Get -/

/-- C3: when the versioner reports a nonzero resource version on the input
object, `Create` returns an error and changes nothing: the backend, the input
object and the output slot are as they were.  This holds for every key, valid
or not, since the check comes first. -/
theorem Create_rejects_preset_version {σ Obj : Type} (s : store σ Obj) (U : CaseTables)
    (key : String)
    (obj : Obj) (out : Option Obj) (ttl : Nat) (st : σ) (version : Nat)
    (hv : s.versioner.ObjectResourceVersion obj = Except.ok version) (hne : version ≠ 0) :
    s.Create U key obj out ttl st =
      Result.ret ⟨st, obj, out,
        some (Error.errorString "resourceVersion should not be set on objects to be created")⟩ := by
  unfold store.Create
  simp [hv, hne]

/-- Instance of C3: an object carrying version 7, over an empty backend. -/
theorem Create_rejects_preset_version_witness :
    (refStore.versioner.ObjectResourceVersion ⟨"7", 3⟩ = Except.ok 7 ∧ 7 ≠ 0) ∧
      refStore.Create asciiTables "/tidb/config/default/cluster1" ⟨"7", 3⟩ (some ⟨"", 0⟩) 0 MemState.empty =
        Result.ret ⟨MemState.empty, ⟨"7", 3⟩, some ⟨"", 0⟩,
          some (Error.errorString "resourceVersion should not be set on objects to be created")⟩ :=
  ⟨⟨by decide, by decide⟩,
    Create_rejects_preset_version refStore asciiTables "/tidb/config/default/cluster1" ⟨"7", 3⟩
      (some ⟨"", 0⟩) 0 MemState.empty 7 (by decide) (by decide)⟩

/-- C4: for a valid key whose backend read fails with `err`, and an output
slot that is there.  If `err` is a not-found error, `Get` with
`ignoreNotFound` set stores the zero value in the slot and returns no error,
and `Get` without it leaves the slot and returns the key-not-found error that
carries the key string as given; any other `err` is returned as it is. -/
theorem Get_backend_error {σ Obj : Type} [Inhabited Obj] (s : store σ Obj) (U : CaseTables)
    (key : String)
    (k : objKey) (resourceVersion : String) (slot : Obj) (st : σ) (err : Error)
    (hk : parseObjKey U key = Result.ret k)
    (hget : s.kubeCli.Get st k.fullName = Except.error err) :
    (IsNotFound err = true →
      s.Get U key resourceVersion (some slot) true st = Result.ret (some default, none) ∧
      s.Get U key resourceVersion (some slot) false st =
        Result.ret (some slot, some (NewKeyNotFoundError key 0))) ∧
    (IsNotFound err = false → ∀ ignoreNotFound,
      s.Get U key resourceVersion (some slot) ignoreNotFound st =
        Result.ret (some slot, some err)) := by
  constructor
  · intro hnf
    constructor <;> simp [store.Get, hk, hget, hnf, SetZeroValue]
  · intro hnf ignoreNotFound
    simp [store.Get, hk, hget, hnf]

/-- Instance of C4: a key the empty reference backend does not hold, and a
client whose read fails with a conflict. -/
theorem Get_backend_error_witness :
    (parseObjKey asciiTables "/a/b/c/d" = Result.ret ⟨"a", "b", "c", "d", "a-b-c-d"⟩ ∧
      refStore.kubeCli.Get MemState.empty "a-b-c-d" =
        Except.error (Error.statusError "NotFound" "configmaps not found")) ∧
    (refStore.Get asciiTables "/a/b/c/d" "" (some ⟨"9", 9⟩) true MemState.empty =
        Result.ret (some ⟨"", 0⟩, none) ∧
      refStore.Get asciiTables "/a/b/c/d" "" (some ⟨"9", 9⟩) false MemState.empty =
        Result.ret (some ⟨"9", 9⟩, some (Error.storageError 1 "/a/b/c/d" 0))) ∧
    (∀ ignoreNotFound,
      (store.mk
        (stubClient (Except.error (Error.statusError "Conflict" "busy"))
          (Except.error (Error.statusError "Conflict" "busy")))
        tidbCodec APIObjectVersioner).Get asciiTables "/a/b/c/d" "" (some ⟨"9", 9⟩) ignoreNotFound () =
      Result.ret (some ⟨"9", 9⟩, some (Error.statusError "Conflict" "busy"))) :=
  ⟨⟨by decide, by decide⟩,
    (Get_backend_error refStore asciiTables "/a/b/c/d" ⟨"a", "b", "c", "d", "a-b-c-d"⟩ "" ⟨"9", 9⟩
      MemState.empty (Error.statusError "NotFound" "configmaps not found") (by decide)
      (by decide)).1 (by decide),
    (Get_backend_error
      (store.mk
        (stubClient (Except.error (Error.statusError "Conflict" "busy"))
          (Except.error (Error.statusError "Conflict" "busy")))
        tidbCodec APIObjectVersioner)
      asciiTables "/a/b/c/d" ⟨"a", "b", "c", "d", "a-b-c-d"⟩ "" ⟨"9", 9⟩ ()
      (Error.statusError "Conflict" "busy") (by decide) rfl).2 (by decide)⟩

/-- C5: over the reference backend, with a lawful versioner and a codec whose
`Decode` inverts `Encode`.  After `Create` under a valid key has succeeded
(which takes a key absent from the backend and an object without a pre-set
version), `Get` of the key succeeds and returns an object that is equal to the
input except for its resource version; that version is nonzero, is the version
the backend assigned to the created entry, and is greater than every version
the backend assigned under that entry name before. -/
theorem Create_then_Get {Obj : Type} [Inhabited Obj] (U : CaseTables) (cd : Codec Obj) (vs : Versioner Obj)
    (key : String) (k : objKey) (obj : Obj) (out : Option Obj) (slot : Obj) (ttl : Nat)
    (resourceVersion : String) (st : MemState) (r : CreateReturn MemState Obj)
    (hvs : vs.Lawful) (hcd : cd.Inverts) (hwf : st.WF) (hrev : st.rev + 1 < 2 ^ 64)
    (hk : parseObjKey U key = Result.ret k)
    (hcreate : (store.mk memClient cd vs).Create U key obj out ttl st = Result.ret r)
    (hok : r.err = none) :
    ∃ got rv cm,
      (store.mk memClient cd vs).Get U key resourceVersion (some slot) false r.backend =
        Result.ret (some got, none) ∧
      EqExceptVersion vs got obj ∧
      rv ≠ 0 ∧ vs.ObjectResourceVersion got = Except.ok rv ∧
      memGet r.backend k.fullName = Except.ok cm ∧
      cm.ObjectMeta.ResourceVersion = FormatUint rv ∧
      ∀ v, (k.fullName, v) ∈ st.assigned → v < rv := by
  obtain ⟨obj1, data, hprep, henc, hfind, hback⟩ :=
    Create_ok_backend U cd vs key k obj out ttl st r hk hcreate hok
  have hfresh := memCreate_fresh st ⟨k.objectMeta, [("value", data)]⟩ hfind
  rw [hfresh] at hback
  simp only at hback
  obtain ⟨got, hgot⟩ := hvs.update_ok obj1 (st.rev + 1)
  have hmem : memGet r.backend k.fullName =
      Except.ok (st.stored ⟨k.objectMeta, [("value", data)]⟩) := by
    rw [hback]
    simp [memGet, MemState.find, MemState.stored, objKey.objectMeta]
  refine ⟨got, st.rev + 1, st.stored ⟨k.objectMeta, [("value", data)]⟩, ?_, ?_, ?_, ?_, hmem, rfl, ?_⟩
  · have hparse := hvs.parse_format (st.rev + 1) hrev
    have hdec := hcd obj1 data slot henc
    have hg : memClient.Get r.backend k.fullName =
        Except.ok (st.stored ⟨k.objectMeta, [("value", data)]⟩) := hmem
    simp [store.Get, hk, hg, MemState.stored, hparse, decode, mapIndex, hdec, stampVersion, hgot]
  · intro w
    exact (hvs.update_update _ _ _ hgot w).trans (hvs.prepare_update _ _ hprep w)
  · omega
  · exact hvs.version_of_update _ _ _ hrev hgot
  · intro v hv
    have := hwf _ hv
    simp only at this
    omega

/-- Instance of C5: the entry of the key was created with version 1 and
deleted from the backend; the next create gets version 2. -/
theorem Create_then_Get_witness :
    (APIObjectVersioner.Lawful ∧ tidbCodec.Inverts ∧ deletedBackend.WF ∧
      deletedBackend.rev + 1 < 2 ^ 64 ∧
      parseObjKey asciiTables "/tidb/config/default/cluster1" =
        Result.ret ⟨"tidb", "config", "default", "cluster1", "tidb-config-default-cluster1"⟩ ∧
      deletedBackend.assigned = [("tidb-config-default-cluster1", 1)] ∧
      ∃ r, refStore.Create asciiTables "/tidb/config/default/cluster1" ⟨"", 3⟩ none 0 deletedBackend =
        Result.ret r ∧ r.err = none) ∧
    ∃ got rv cm,
      refStore.Get asciiTables "/tidb/config/default/cluster1" "" (some ⟨"", 0⟩) false
          (memCreate deletedBackend
            ⟨objKey.objectMeta
                ⟨"tidb", "config", "default", "cluster1", "tidb-config-default-cluster1"⟩,
              [("value", "+3;")]⟩).1 =
        Result.ret (some got, none) ∧
      EqExceptVersion APIObjectVersioner got ⟨"", 3⟩ ∧
      rv ≠ 0 ∧ APIObjectVersioner.ObjectResourceVersion got = Except.ok rv ∧
      memGet
          (memCreate deletedBackend
            ⟨objKey.objectMeta
                ⟨"tidb", "config", "default", "cluster1", "tidb-config-default-cluster1"⟩,
              [("value", "+3;")]⟩).1
          "tidb-config-default-cluster1" = Except.ok cm ∧
      cm.ObjectMeta.ResourceVersion = FormatUint rv ∧
      ∀ v, ("tidb-config-default-cluster1", v) ∈ deletedBackend.assigned → v < rv :=
  ⟨⟨APIObjectVersioner_lawful, tidbCodec_inverts,
      by unfold MemState.WF; decide, by decide, by decide, by decide,
      ⟨_, rfl, rfl⟩⟩,
    Create_then_Get asciiTables tidbCodec APIObjectVersioner "/tidb/config/default/cluster1"
      ⟨"tidb", "config", "default", "cluster1", "tidb-config-default-cluster1"⟩ ⟨"", 3⟩ none
      ⟨"", 0⟩ 0 "" deletedBackend
      ⟨(memCreate deletedBackend
          ⟨objKey.objectMeta
              ⟨"tidb", "config", "default", "cluster1", "tidb-config-default-cluster1"⟩,
            [("value", "+3;")]⟩).1, ⟨"", 3⟩, none, none⟩
      APIObjectVersioner_lawful tidbCodec_inverts
      (by unfold MemState.WF; decide) (by decide) (by decide) (by decide) rfl⟩

/-! ## The unimplemented operations -/

/-- C8, the code at the failing input: the key has no backend entry, and
`GuaranteedUpdate` returns no error whatever `ignoreNotFound` is, invokes the
update function on nothing and leaves the backend empty, although the update
function asks for a change. -/
theorem GuaranteedUpdate_missing_key :
    memGet MemState.empty "tidb-config-default-cluster1" =
        Except.error (Error.statusError "NotFound" "configmaps not found") ∧
      refStore.GuaranteedUpdate "/tidb/config/default/cluster1" (some ⟨"", 0⟩) false
          (some ⟨none⟩) (fun o _ => Except.ok ({ o with Replicas := 4 }, none)) []
          MemState.empty =
        Result.ret ⟨MemState.empty, some ⟨"", 0⟩, [], none⟩ ∧
      refStore.GuaranteedUpdate "/tidb/config/default/cluster1" (some ⟨"", 0⟩) true
          (some ⟨none⟩) (fun o _ => Except.ok ({ o with Replicas := 4 }, none)) []
          MemState.empty =
        Result.ret ⟨MemState.empty, some ⟨"", 0⟩, [], none⟩ := by
  decide

/-- C9, the code at the failing input: the backend holds the entry created
under `/tidb/config/default/cluster1`, labelled group `tidb`, kind `config`,
namespace `default`; `List` on `/tidb/config/default` with a predicate that
matches everything returns no error and appends nothing. -/
theorem List_appends_nothing :
    ∃ r, refStore.Create asciiTables "/tidb/config/default/cluster1" ⟨"", 3⟩ none 0 MemState.empty =
        Result.ret r ∧ r.err = none ∧
      r.backend.entries.map (fun e => e.ObjectMeta.Labels) =
        [[(groupLabel, "tidb"), (kindLabel, "config"), (namespaceLabel, "default"),
          (nameLabel, "cluster1")]] ∧
      refStore.List "/tidb/config/default" "" ⟨fun _ => Except.ok true⟩
          ⟨ItemsField.slice [], ""⟩ r.backend =
        Result.ret (⟨ItemsField.slice [], ""⟩, none) :=
  ⟨_, rfl, rfl, by decide, by decide⟩

/-! ## Delete -/

/-- C6, the code at the failing input: after `Create` under
`/tidb/config/default/cluster1`, `Delete` of the same key with a precondition
that asks for nothing hands the key string itself to the backend, which holds
no entry of that name; `Delete` returns the backend's not-found error, the
backend is unchanged, and `Get` still returns the object. -/
theorem Delete_misses_created_entry :
    ∃ r d, refStore.Create asciiTables "/tidb/config/default/cluster1" ⟨"", 3⟩ none 0 MemState.empty =
        Result.ret r ∧ r.err = none ∧
      refStore.Delete "/tidb/config/default/cluster1" none (some ⟨none⟩) r.backend =
        Result.ret d ∧
      d.err = some (Error.statusError "NotFound" "configmaps not found") ∧
      d.backend = r.backend ∧
      refStore.Get asciiTables "/tidb/config/default/cluster1" "" (some ⟨"", 0⟩) false d.backend =
        Result.ret (some ⟨"1", 3⟩, none) :=
  ⟨_, _, rfl, rfl, rfl, by decide, by decide, by decide⟩

/-! ## GetToList -/

/-- C7, against the claim: the backend answers the list query with two
entries, both of which decode and match the predicate; `GetToList` returns no
error, yet only the first entry is in the output list. -/
theorem GetToList_ignores_second_entry :
    (listStore twoEntries).GetToList asciiTables "/tidb/config/default/cluster1" ""
        ⟨fun _ => Except.ok true⟩ ⟨ItemsField.slice [], ""⟩ () =
      Result.ret (⟨ItemsField.slice [⟨"1", 3⟩], "2"⟩, none) ∧
    tidbCodec.Decode "+4;" default = Except.ok ⟨"", 4⟩ ∧
    stampVersion APIObjectVersioner ⟨"", 4⟩ 2 = ⟨"2", 4⟩ ∧
    (⟨"2", 4⟩ : TidbConfig) ∉ [(⟨"1", 3⟩ : TidbConfig)] := by
  decide

/-- The list-level version of the response does not parse: `GetToList` returns
no error and leaves the version of the list as it was (the code returns nil
where it has the parse error at hand). -/
theorem GetToList_unparsed_list_version :
    (∃ e, APIObjectVersioner.ParseResourceVersion "abc" = Except.error e) ∧
    (listStore ⟨"abc", []⟩).GetToList asciiTables "/tidb/config/default/cluster1" ""
        ⟨fun _ => Except.ok true⟩ ⟨ItemsField.slice [], "7"⟩ () =
      Result.ret (⟨ItemsField.slice [], "7"⟩, none) :=
  ⟨⟨_, rfl⟩, by decide⟩

/-- C7, amended: when `GetToList` returns no error, the list object had a
slice of items; the first entry of the backend's answer, if there is one, was
decoded, stamped with its own version and, when it matches the predicate,
appended to that slice (entries after the first are not looked at), and the
slice so obtained is what the output list holds: when the list-level version
of the answer parses, the returned list is what the versioner's `UpdateList`
makes of the list holding that slice with that version, and when it does not
parse the returned list holds that slice. -/
theorem GetToList_success {σ Obj : Type} [Inhabited Obj] (s : store σ Obj) (U : CaseTables)
    (key : String) (k : objKey) (resourceVersion : String) (p : SelectionPredicate Obj)
    (listObj l1 : ObjectList Obj) (st : σ) (cmList : ConfigMapList)
    (hk : parseObjKey U key = Result.ret k)
    (hlist : s.kubeCli.List st ⟨"metada.name=" ++ k.fullName⟩ = Except.ok cmList)
    (hret : s.GetToList U key resourceVersion p listObj st = Result.ret (l1, none)) :
    ∃ v v1, listObj.Items = ItemsField.slice v ∧
      (cmList.Items = [] → v1 = v) ∧
      (∀ item0 rest, cmList.Items = item0 :: rest →
        ∃ rv0 obj0,
          s.versioner.ParseResourceVersion item0.ObjectMeta.ResourceVersion = Except.ok rv0 ∧
          s.codec.Decode (mapIndex item0.Data "value") default = Except.ok obj0 ∧
          v1 = if p.Matches (stampVersion s.versioner obj0 rv0) = Except.ok true then
              v ++ [stampVersion s.versioner obj0 rv0] else v) ∧
      (∀ listRV, s.versioner.ParseResourceVersion cmList.ResourceVersion = Except.ok listRV →
        s.versioner.UpdateList ⟨ItemsField.slice v1, listObj.ResourceVersion⟩ listRV "" =
          Except.ok l1) ∧
      (∀ e, s.versioner.ParseResourceVersion cmList.ResourceVersion = Except.error e →
        l1.Items = ItemsField.slice v1) := by
  unfold store.GetToList at hret
  cases hitems : listObj.Items with
  | missing => simp [GetItemsPtr, hitems] at hret
  | notSlice => simp [GetItemsPtr, hitems] at hret
  | slice v =>
    simp only [GetItemsPtr, hitems, hk, hlist] at hret
    generalize happ :
      (match cmList.Items with
        | item0 :: _ =>
          match s.versioner.ParseResourceVersion item0.ObjectMeta.ResourceVersion with
          | Except.error err => (Except.error err : Except Error (List Obj))
          | Except.ok rv =>
            match appendListItem v (mapIndex item0.Data "value") rv p s.codec s.versioner with
            | (_, some err) => Except.error err
            | (v1, none) => Except.ok v1
        | [] => Except.ok v) = appended at hret
    cases appended with
    | error e => simp at hret
    | ok v1 =>
      refine ⟨v, v1, rfl, ?_, ?_, ?_, ?_⟩
      · intro he
        rw [he] at happ
        simp only [Except.ok.injEq] at happ
        exact happ.symm
      · intro item0 rest he
        rw [he] at happ
        simp only at happ
        cases hp : s.versioner.ParseResourceVersion item0.ObjectMeta.ResourceVersion with
        | error e => simp [hp] at happ
        | ok rv0 =>
          simp only [hp] at happ
          rcases ha : appendListItem v (mapIndex item0.Data "value") rv0 p s.codec s.versioner
            with ⟨v2, e2⟩
          cases e2 with
          | some e => simp [ha] at happ
          | none =>
            simp only [ha, Except.ok.injEq] at happ
            subst happ
            obtain ⟨obj0, hdec, hv⟩ := appendListItem_ok _ _ _ _ _ _ _ ha
            exact ⟨rv0, obj0, rfl, hdec, hv⟩
      · intro listRV hl
        simp only [hl] at hret
        cases hu : s.versioner.UpdateList ⟨ItemsField.slice v1, listObj.ResourceVersion⟩ listRV ""
          with
        | error e => simp [hu] at hret
        | ok l2 =>
          simp only [hu, Result.ret.injEq, Prod.mk.injEq, and_true] at hret
          rw [hret]
      · intro e he
        simp only [he, Result.ret.injEq, Prod.mk.injEq, and_true] at hret
        rw [← hret]

/-- Instance of C7, amended: the two-entry answer, whose list-level version
parses, and the one-entry answer, whose list-level version does not. -/
theorem GetToList_success_witness :
    ((parseObjKey asciiTables "/tidb/config/default/cluster1" =
        Result.ret ⟨"tidb", "config", "default", "cluster1", "tidb-config-default-cluster1"⟩ ∧
      (listStore twoEntries).kubeCli.List () ⟨"metada.name=" ++ "tidb-config-default-cluster1"⟩ =
        Except.ok twoEntries ∧
      (listStore twoEntries).GetToList asciiTables "/tidb/config/default/cluster1" ""
          ⟨fun _ => Except.ok true⟩ ⟨ItemsField.slice [], ""⟩ () =
        Result.ret (⟨ItemsField.slice [⟨"1", 3⟩], "2"⟩, none)) ∧
    ∃ v v1, (ItemsField.slice [] : ItemsField TidbConfig) = ItemsField.slice v ∧
      (twoEntries.Items = [] → v1 = v) ∧
      (∀ item0 rest, twoEntries.Items = item0 :: rest →
        ∃ rv0 obj0,
          APIObjectVersioner.ParseResourceVersion item0.ObjectMeta.ResourceVersion =
            Except.ok rv0 ∧
          tidbCodec.Decode (mapIndex item0.Data "value") default = Except.ok obj0 ∧
          v1 = if (Except.ok true : Except Error Bool) = Except.ok true then
              v ++ [stampVersion APIObjectVersioner obj0 rv0] else v) ∧
      (∀ listRV, APIObjectVersioner.ParseResourceVersion twoEntries.ResourceVersion =
          Except.ok listRV →
        APIObjectVersioner.UpdateList ⟨ItemsField.slice v1, ""⟩ listRV "" =
          Except.ok ⟨ItemsField.slice [⟨"1", 3⟩], "2"⟩) ∧
      (∀ e, APIObjectVersioner.ParseResourceVersion twoEntries.ResourceVersion =
          Except.error e →
        (ItemsField.slice [⟨"1", 3⟩] : ItemsField TidbConfig) = ItemsField.slice v1)) ∧
    (((listStore unversionedAnswer).kubeCli.List ()
          ⟨"metada.name=" ++ "tidb-config-default-cluster1"⟩ =
        Except.ok unversionedAnswer ∧
      (listStore unversionedAnswer).GetToList asciiTables "/tidb/config/default/cluster1" ""
          ⟨fun _ => Except.ok true⟩ ⟨ItemsField.slice [], "7"⟩ () =
        Result.ret (⟨ItemsField.slice [⟨"1", 3⟩], "7"⟩, none)) ∧
    ∃ v v1, (ItemsField.slice [] : ItemsField TidbConfig) = ItemsField.slice v ∧
      (unversionedAnswer.Items = [] → v1 = v) ∧
      (∀ item0 rest, unversionedAnswer.Items = item0 :: rest →
        ∃ rv0 obj0,
          APIObjectVersioner.ParseResourceVersion item0.ObjectMeta.ResourceVersion =
            Except.ok rv0 ∧
          tidbCodec.Decode (mapIndex item0.Data "value") default = Except.ok obj0 ∧
          v1 = if (Except.ok true : Except Error Bool) = Except.ok true then
              v ++ [stampVersion APIObjectVersioner obj0 rv0] else v) ∧
      (∀ listRV, APIObjectVersioner.ParseResourceVersion unversionedAnswer.ResourceVersion =
          Except.ok listRV →
        APIObjectVersioner.UpdateList ⟨ItemsField.slice v1, "7"⟩ listRV "" =
          Except.ok ⟨ItemsField.slice [⟨"1", 3⟩], "7"⟩) ∧
      (∀ e, APIObjectVersioner.ParseResourceVersion unversionedAnswer.ResourceVersion =
          Except.error e →
        (ItemsField.slice [⟨"1", 3⟩] : ItemsField TidbConfig) = ItemsField.slice v1)) :=
  ⟨⟨⟨by decide, rfl, by decide⟩,
    GetToList_success (listStore twoEntries) asciiTables "/tidb/config/default/cluster1"
      ⟨"tidb", "config", "default", "cluster1", "tidb-config-default-cluster1"⟩ ""
      ⟨fun _ => Except.ok true⟩ ⟨ItemsField.slice [], ""⟩ ⟨ItemsField.slice [⟨"1", 3⟩], "2"⟩ ()
      twoEntries (by decide) rfl (by decide)⟩,
   ⟨⟨rfl, by decide⟩,
    GetToList_success (listStore unversionedAnswer) asciiTables "/tidb/config/default/cluster1"
      ⟨"tidb", "config", "default", "cluster1", "tidb-config-default-cluster1"⟩ ""
      ⟨fun _ => Except.ok true⟩ ⟨ItemsField.slice [], "7"⟩ ⟨ItemsField.slice [⟨"1", 3⟩], "7"⟩ ()
      unversionedAnswer (by decide) rfl (by decide)⟩⟩

end Kaba
